import Mathlib

/-!
Shallow embedding of the agricola player-board engine
(src/agricola/player.py and src/agricola/utils.py) and proofs of the
frozen claims about it.

Conventions of the embedding:
* Python ints are `Int` (unbounded); counts that the source can only ever
  produce as non-negative are `Nat` where noted.
* Board coordinates are pairs of `Int` (out-of-range values must be
  representable, `index_check` rejects them at run time).
* Exceptions are modelled by an error kind together with the player state
  at the moment the exception propagates, so that partial mutation before
  an error is observable.
-/

namespace Agricola

/-- A board coordinate `(row, col)`, a Python tuple of two ints. -/
abbrev Coord := Int × Int

/-- A fence edge: a pair of grid corner points, as built by `Pasture.__init__`. -/
abbrev Edge := Coord × Coord

/-- `utils.orthog_adjacent`: true iff exactly one coordinate axis differs and
the absolute differences sum to 1. -/
def orthog_adjacent (a b : Coord) : Bool :=
  let dr := (a.1 - b.1).natAbs
  let dc := (a.2 - b.2).natAbs
  ((if dr ≠ 0 then 1 else 0) + (if dc ≠ 0 then 1 else 0) == 1) && (dr + dc == 1)

/-- `utils.index_check` succeeds: the coordinate is within `shape`
(each component non-negative and below the bound). -/
def index_ok (shape : Int × Int) (c : Coord) : Bool :=
  !(c.1 < 0 || c.2 < 0 || c.1 ≥ shape.1 || c.2 ≥ shape.2)

/-- One breadth-first growth pass, fuelled: repeatedly adds to `comp` every
node of `nodes` orthogonally adjacent to the component. Embeds the reachable
set of `networkx`'s connectivity test on the orthogonal-adjacency graph. -/
def growComponent : Nat → List Coord → List Coord → List Coord
  | 0, _, comp => comp
  | fuel + 1, nodes, comp =>
    let fresh := nodes.filter fun c => !comp.contains c && comp.any fun v => orthog_adjacent c v
    if fresh.isEmpty then comp else growComponent fuel nodes (comp ++ fresh)

/-- `SpatialObject.orthog_graph` with `require_connected`: the de-duplicated
node set (the union of the objects' spaces) is empty, a single node, or one
connected component under `orthog_adjacent`. -/
def connectedNodes (nodesRaw : List Coord) : Bool :=
  let nodes := nodesRaw.eraseDups
  match nodes with
  | [] => true
  | n :: rest => (growComponent (rest.length + 1) (n :: rest) [n]).length == rest.length + 1

/-- `utils.multiset_satisfy`, with the capacity `Counter` represented by the
list of capacities it was built from (`collections.Counter(capacities)`):
iterating the Cartesian product of per-key usage counts enumerates exactly the
sub-multisets of the capacity list, i.e. its sublists up to permutation, and
`multiset_subtract`'s clamped per-key subtraction is list difference of a
sublist. Base cases, the total-weight pruning and the recursion mirror the
source line by line. -/
def multiset_satisfy (constraints : List Nat) (caps : List Nat) : Bool :=
  match constraints with
  | [] => true
  | c :: cs =>
    match cs with
    | [] => decide (c ≤ caps.sum)
    | _ :: _ =>
      if caps.sum < c + cs.sum then false
      else caps.sublists.any fun s => decide (c ≤ s.sum) && multiset_satisfy cs (caps.diff s)

theorem multiset_satisfy_nil (caps : List Nat) : multiset_satisfy [] caps = true := rfl

theorem multiset_satisfy_single (c : Nat) (caps : List Nat) :
    multiset_satisfy [c] caps = decide (c ≤ caps.sum) := rfl

theorem multiset_satisfy_cons (c c' : Nat) (cs : List Nat) (caps : List Nat) :
    multiset_satisfy (c :: c' :: cs) caps =
      if caps.sum < c + (c' :: cs).sum then false
      else caps.sublists.any fun s =>
        decide (c ≤ s.sum) && multiset_satisfy (c' :: cs) (caps.diff s) := rfl

/-- Formalization of the claimed acceptance criterion of the capacity solver:
the capacity multiset `C` can be split into pairwise-disjoint sub-multisets,
one per requirement under some bijection, each of total weight at least its
assigned requirement. A list `parts` with `parts.sum ≤ C` is exactly a family
of pairwise-disjoint sub-multisets of `C`, and since `parts` is existentially
quantified any bijection between requirements and parts is allowed. -/
def CanSatisfy (gs : List Nat) (C : Multiset Nat) : Prop :=
  ∃ parts : List (Multiset Nat),
    List.Forall₂ (fun g P => g ≤ Multiset.sum P) gs parts ∧ parts.sum ≤ C

/-- `Field`: a single-space region with an occupancy count and planted kind
(`None`/`'grain'`/`'veg'`). -/
structure Field where
  space : Coord
  nItems : Nat
  kind : Option String
deriving DecidableEq, Repr

/-- The consistency invariant `Field.__init__` enforces
(`bool(n_items) != bool(kind)` raises), preserved by `plant_grain`,
`plant_veg` and `harvest`: every `Field` object the program can build
satisfies it. -/
def Field.wf (f : Field) : Prop := f.nItems = 0 ↔ f.kind = none

instance (f : Field) : Decidable f.wf := by unfold Field.wf; infer_instance

/-- The four fence segments of one cell, in the source's top/right/bottom/left
order. -/
def cellFences (s : Coord) : List Edge :=
  [((s.1, s.2), (s.1, s.2 + 1)), ((s.1, s.2 + 1), (s.1 + 1, s.2 + 1)),
   ((s.1 + 1, s.2), (s.1 + 1, s.2 + 1)), ((s.1, s.2), (s.1 + 1, s.2))]

/-- The fence list `Pasture.__init__` computes from the raw (pre-deduplication)
space list: every edge contributed by exactly one cell occurrence. -/
def pastureFences (raw : List Coord) : List Edge :=
  let allF := raw.flatMap cellFences
  allF.eraseDups.filter fun f => allF.count f == 1

/-- `Pasture`: spaces are `list(set(spaces))` (de-duplicated; every use of the
list is order-insensitive, so `eraseDups` is a faithful representative), the
derived fence list, and the attached-stable counter. -/
structure Pasture where
  spaces : List Coord
  fences : List Edge
  nStables : Nat
deriving DecidableEq, Repr

/-- `Pasture.__init__` for a list of coordinate pairs. `spaces[0]` on an empty
list raises IndexError. -/
def mkPasture (raw : List Coord) : Except Unit Pasture :=
  match raw with
  | [] => .error ()
  | _ :: _ => .ok { spaces := raw.eraseDups, fences := pastureFences raw, nStables := 0 }

/-- `Pasture.fences_for_pasture_group`: the union (as a set) of the pastures'
fence lists. -/
def fencesForPastureGroup (ps : List Pasture) : List Edge :=
  (ps.flatMap Pasture.fences).eraseDups

/-- `Stable.capacity`: always 1. -/
def stableCapacity : Nat := 1

/-- The exception kinds the embedded code can raise. `AgricolaNotEnoughResources`
covers both the spec's InsufficientResources and InsufficientCapacity (the
source raises the same class for both); `attributeError`, `typeError`,
`keyError`, `indexError` and `stopIteration` are the Python built-ins. -/
inductive AgricolaError where
  | notEnoughResources
  | logicError
  | impossible
  | poorlyFormed
  | indexError
  | attributeError
  | typeError
  | keyError
  | stopIteration
deriving DecidableEq, Repr

/-- `Pasture.capacity` reads `self.n_spaces`, but neither `Pasture` nor any of
its bases ever defines an attribute `n_spaces` (the cell list is `self.spaces`
and the stable counter `self.n_stables`), so every call raises
AttributeError before computing anything. -/
def Pasture.capacityRun (_ : Pasture) : Except AgricolaError Nat := .error .attributeError

/-- The settable attribute slots of a `Player`: the ten resource/animal names
whose attribute-visible value `setattr` updates (shadowing the backing dicts),
plus the four plain counter attributes. All other `RESOURCE_TYPES` names are
read-only properties. -/
inductive SKey where
  | food | wood | clay | stone | reed | grain | veg | sheep | boar | cattle
  | fencesAvail | stablesAvail | people | peopleAvail
deriving DecidableEq, Repr, Fintype

/-- Whether an `SKey` is one of the ten tracked ledger resources (goods and
animals) rather than a construction counter. -/
def SKey.tracked : SKey → Bool
  | .fencesAvail | .stablesAvail | .people | .peopleAvail => false
  | _ => true

/-- The player board state: the attribute-visible values of the settable
slots, the region lists, and the configuration the constructor sets.
`occupiedPastures` models the `self.occupied['pasture']` alias: `__init__`
binds it to the same list object as `self._pastures`; `build_pastures`
rebinds `self._pastures` to a fresh concatenation, so the alias keeps the old
list, while rooms, stables and fields are extended in place and
`self.occupied` stays in sync with them (one field each suffices). -/
structure Player where
  shape : Int × Int
  houseType : String
  food : Int
  wood : Int
  clay : Int
  stone : Int
  reed : Int
  grain : Int
  veg : Int
  sheep : Int
  boar : Int
  cattle : Int
  fencesAvail : Int
  stablesAvail : Int
  people : Int
  peopleAvail : Int
  rooms : List Coord
  fieldsL : List Field
  pastures : List Pasture
  occupiedPastures : List Pasture
  stables : List Coord
  breadRates : List Int
  roomCost : Int
deriving DecidableEq, Repr

/-- Read a settable slot. -/
def getS (p : Player) : SKey → Int
  | .food => p.food
  | .wood => p.wood
  | .clay => p.clay
  | .stone => p.stone
  | .reed => p.reed
  | .grain => p.grain
  | .veg => p.veg
  | .sheep => p.sheep
  | .boar => p.boar
  | .cattle => p.cattle
  | .fencesAvail => p.fencesAvail
  | .stablesAvail => p.stablesAvail
  | .people => p.people
  | .peopleAvail => p.peopleAvail

/-- Write a settable slot (`setattr`). -/
def setS (p : Player) : SKey → Int → Player
  | .food, v => { p with food := v }
  | .wood, v => { p with wood := v }
  | .clay, v => { p with clay := v }
  | .stone, v => { p with stone := v }
  | .reed, v => { p with reed := v }
  | .grain, v => { p with grain := v }
  | .veg, v => { p with veg := v }
  | .sheep, v => { p with sheep := v }
  | .boar, v => { p with boar := v }
  | .cattle, v => { p with cattle := v }
  | .fencesAvail, v => { p with fencesAvail := v }
  | .stablesAvail, v => { p with stablesAvail := v }
  | .people, v => { p with people := v }
  | .peopleAvail, v => { p with peopleAvail := v }

/-- The attribute name of a settable slot. -/
def skName : SKey → String
  | .food => "food"
  | .wood => "wood"
  | .clay => "clay"
  | .stone => "stone"
  | .reed => "reed"
  | .grain => "grain"
  | .veg => "veg"
  | .sheep => "sheep"
  | .boar => "boar"
  | .cattle => "cattle"
  | .fencesAvail => "fences_avail"
  | .stablesAvail => "stables_avail"
  | .people => "people"
  | .peopleAvail => "people_avail"

/-- Which attribute names are settable slots. -/
def settableOf : String → Option SKey
  | "food" => some .food
  | "wood" => some .wood
  | "clay" => some .clay
  | "stone" => some .stone
  | "reed" => some .reed
  | "grain" => some .grain
  | "veg" => some .veg
  | "sheep" => some .sheep
  | "boar" => some .boar
  | "cattle" => some .cattle
  | "fences_avail" => some .fencesAvail
  | "stables_avail" => some .stablesAvail
  | "people" => some .people
  | "people_avail" => some .peopleAvail
  | _ => none

/-- `RESOURCE_TYPES` of the source, in order. -/
def RESOURCE_TYPES : List String :=
  ["food", "wood", "clay", "stone", "reed", "sheep", "boar", "cattle", "grain", "veg",
   "pastures", "fences", "fences_avail", "stables", "fenced_stables", "free_stables",
   "stables_avail", "rooms", "people", "people_avail", "grain_fields", "veg_fields",
   "empty_fields", "fields", "empty_spaces", "used_spaces"]

/-- Result of a Python attribute read used as a number: the attribute may be
missing (AttributeError), may evaluate to a non-integer or raise inside its
property getter (any arithmetic/comparison on it then raises TypeError), or
yield an integer. -/
inductive GetResult where
  | int (v : Int)
  | nonInt
deriving DecidableEq, Repr

/-- The `empty_fields` property: fields whose planted kind is `None`. -/
def emptyFieldsCount (p : Player) : Nat :=
  (p.fieldsL.filter fun f => f.kind == none).length

/-- The read-only properties of `Player`, by name. `fences`, `empty_spaces`
and `used_spaces` return sets (non-integers); `fenced_stables` and
`free_stables` iterate `self.pastures` — an int, the pasture-count property —
inside their comprehension, so they raise TypeError unless the stable list is
empty and the comprehension never evaluates its condition. -/
def derivedGet (p : Player) : String → Option GetResult
  | "rooms" => some (.int p.rooms.length)
  | "pastures" => some (.int p.pastures.length)
  | "stables" => some (.int p.stables.length)
  | "fields" => some (.int p.fieldsL.length)
  | "grain_fields" => some (.int (p.fieldsL.filter fun f => f.kind == some "grain").length)
  | "veg_fields" => some (.int (p.fieldsL.filter fun f => f.kind == some "veg").length)
  | "empty_fields" => some (.int (emptyFieldsCount p))
  | "fenced_stables" => some (if p.stables.isEmpty then .int 0 else .nonInt)
  | "free_stables" => some (if p.stables.isEmpty then .int 0 else .nonInt)
  | "fences" => some .nonInt
  | "empty_spaces" => some .nonInt
  | "used_spaces" => some .nonInt
  | _ => none

/-- `getattr(player, k)` for a name used as a number: settable slots first
(they shadow nothing relevant: the ten resource names fall through
`__getattr__` to the dicts until first written, with the same visible value),
then the properties; `none` is AttributeError. -/
def pgetattrR (p : Player) (k : String) : Option GetResult :=
  match settableOf k with
  | some sk => some (.int (getS p sk))
  | none => derivedGet p k

/-- `setattr(player, k, v)`: fails (AttributeError) unless `k` is a settable
slot — the property names among `RESOURCE_TYPES` have no setters. -/
def psetattr (p : Player) (k : String) (v : Int) : Option Player :=
  (settableOf k).map fun sk => setS p sk v

/-- A Python dict from resource names to ints, as an insertion-ordered
association list with unique keys (`dset` overwrites in place or appends the
way dict assignment does). -/
abbrev Dict := List (String × Int)

/-- `d.get(k)`. -/
def dget (l : Dict) (k : String) : Option Int :=
  match l with
  | [] => none
  | (k', v) :: rest => if k' = k then some v else dget rest k

/-- `d[k] = v`: overwrite in place, or append a new key. -/
def dset (l : Dict) (k : String) (v : Int) : Dict :=
  match l with
  | [] => [(k, v)]
  | (k', v') :: rest => if k' = k then (k, v) :: rest else (k', v') :: dset rest k v

/-- The run of one player-mutating call: success, or an exception kind with
the player state at the moment it propagates. -/
inductive PRun where
  | ok (p : Player)
  | err (e : AgricolaError) (p : Player)
deriving DecidableEq, Repr

/-- The prereq-completion loop of `PlayerStateChange.__init__`: every change
key with a negative delta adds `prereq[k] = prereq.get(k, 0) - v`. -/
def buildPrereq : Dict → Dict → Dict
  | [], pr => pr
  | (k, v) :: rest, pr =>
    buildPrereq rest (if v < 0 then dset pr k ((dget pr k).getD 0 - v) else pr)

/-- The prereq check loop of `check_and_apply`: the first failing entry
raises; an unreadable attribute raises AttributeError, a non-integer value
raises TypeError at the comparison. -/
def checkPrereqs : Dict → Player → Option AgricolaError
  | [], _ => none
  | (k, v) :: rest, p =>
    match pgetattrR p k with
    | none => some .attributeError
    | some .nonInt => some .typeError
    | some (.int a) => if a < v then some .notEnoughResources else checkPrereqs rest p

/-- The apply loop of `check_and_apply`:
`setattr(player, k, v + getattr(player, k))` per change entry, threading the
partially-updated state so that a mid-loop failure leaves earlier writes
visible. -/
def applyChange : Dict → Player → PRun
  | [], p => .ok p
  | (k, v) :: rest, p =>
    match pgetattrR p k with
    | none => .err .attributeError p
    | some .nonInt => .err .typeError p
    | some (.int a) =>
      match psetattr p k (v + a) with
      | none => .err .attributeError p
      | some q => applyChange rest q

/-- Constructing a `PlayerStateChange` and running `check_and_apply`:
`__init__` rejects change keys outside `RESOURCE_TYPES` (AgricolaLogicError)
and completes the prereq dict; `check_and_apply` checks every prereq, then
applies every delta. The ops of this file pass no prereq/change callbacks,
matching the source's calls. -/
def transact (change prereq : Dict) (p : Player) : PRun :=
  if change.any fun kv => !(RESOURCE_TYPES.contains kv.1) then .err .logicError p
  else
    match checkPrereqs (buildPrereq change prereq) p with
    | some e => .err e p
    | none => applyChange change p

/-- A `PlayerStateChange` as the repository's operations build them: a change
dict and an explicit prereq dict (the description only feeds error
messages). -/
structure SC where
  description : String
  change : Dict
  prereq : Dict
deriving DecidableEq, Repr

/-- Run one transaction. -/
def runSC (sc : SC) (p : Player) : PRun := transact sc.change sc.prereq p

/-- Run a list of transactions, stopping at the first failure. -/
def runSeq : List SC → Player → PRun
  | [], p => .ok p
  | sc :: rest, p =>
    match runSC sc p with
    | .ok q => runSeq rest q
    | .err e q => .err e q

/-- Well-formedness every transaction the program builds has: the change and
prereq dicts have unique keys (they are Python dicts) and the explicit
prereq amounts are non-negative (they are required minimum quantities). -/
def SCWf (sc : SC) : Prop :=
  (sc.change.map Prod.fst).Nodup ∧ (sc.prereq.map Prod.fst).Nodup ∧
    ∀ kv ∈ sc.prereq, 0 ≤ kv.2

instance (sc : SC) : Decidable (SCWf sc) := by unfold SCWf; infer_instance

/-- All ten tracked ledger resources are non-negative. -/
def AllNonneg (p : Player) : Prop := ∀ sk : SKey, sk.tracked → 0 ≤ getS p sk

instance (p : Player) : Decidable (AllNonneg p) := by unfold AllNonneg; infer_instance

/-- Cell lists of the `self.occupied` registry, by kind, in its insertion
order (room, pasture, stable, field). The pasture entry goes through the
stale `occupiedPastures` alias. -/
def occupiedSpacesOf (p : Player) (kind : String) : List Coord :=
  match kind with
  | "room" => p.rooms
  | "pasture" => p.occupiedPastures.flatMap Pasture.spaces
  | "stable" => p.stables
  | _ => p.fieldsL.map Field.space

/-- `Player._check_spatial_objects` for a batch of new cells: bounds check
(IndexError), duplicate cells within the batch (AgricolaImpossible), then
overlap against each registered kind not omitted (AgricolaImpossible), in the
registry's room/pasture/stable/field order. -/
def checkSpatial (p : Player) (spacesNew : List Coord) (omitP omitS : Bool) :
    Option AgricolaError :=
  if spacesNew.any fun c => !index_ok p.shape c then some .indexError
  else if spacesNew.any fun c => 1 < spacesNew.count c then some .impossible
  else if spacesNew.any fun c =>
      (occupiedSpacesOf p "room").contains c ||
      (!omitP && (occupiedSpacesOf p "pasture").contains c) ||
      (!omitS && (occupiedSpacesOf p "stable").contains c) ||
      (occupiedSpacesOf p "field").contains c then some .impossible
  else none

/-- A two-entry Python dict literal. -/
def dlit2 (k1 : String) (v1 : Int) (k2 : String) (v2 : Int) : Dict :=
  dset (dset [] k1 v1) k2 v2

/-- `Player.build_rooms`: spatial check, whole-group connectivity over old and
new rooms, then one transaction deducting `room_cost` units of the house
material and 2 reed per room, then extend the room list. -/
def buildRoomsRun (p : Player) (spaces : List Coord) : PRun :=
  match checkSpatial p spaces false false with
  | some e => .err e p
  | none =>
    if !connectedNodes (p.rooms ++ spaces) then .err .logicError p
    else
      match transact (dlit2 p.houseType (-(p.roomCost * (spaces.length : Int)))
          "reed" (-(2 * (spaces.length : Int)))) [] p with
      | .err e q => .err e q
      | .ok q => .ok { q with rooms := q.rooms ++ spaces }

/-- `Pasture(p)` for each requested group, first failure (empty group:
IndexError) aborting the call. -/
def mkPastures : List (List Coord) → Except Unit (List Pasture)
  | [] => .ok []
  | raw :: rest =>
    match mkPasture raw with
    | .error e => .error e
    | .ok pa =>
      match mkPastures rest with
      | .error e => .error e
      | .ok pas => .ok (pa :: pas)

/-- The per-pasture spatial check loop of `build_pastures` (each new pasture
is checked alone, `omit=['stable']`; new pastures are never checked against
each other). -/
def checkSpatialPastures (p : Player) : List Pasture → Option AgricolaError
  | [] => none
  | pa :: rest =>
    match checkSpatial p pa.spaces false true with
    | some e => some e
    | none => checkSpatialPastures p rest

/-- The wood/fence cost of `build_pastures`: the new group's fences minus the
fence set of the already-built pastures. -/
def newFenceCount (p : Player) (ps : List Pasture) : Int :=
  ((fencesForPastureGroup ps).filter fun f =>
    !(fencesForPastureGroup p.pastures).contains f).length

/-- `Player.build_pastures`: construct the pastures, check each alone, check
group connectivity over old and new pastures, pay wood and fence stock for
fences not already present, then rebind `self._pastures` to a fresh list —
`self.occupied['pasture']` (modelled by `occupiedPastures`) keeps the old
one. -/
def buildPasturesRun (p : Player) (groups : List (List Coord)) : PRun :=
  match mkPastures groups with
  | .error _ => .err .indexError p
  | .ok ps =>
    match checkSpatialPastures p ps with
    | some e => .err e p
    | none =>
      if !connectedNodes ((p.pastures ++ ps).flatMap Pasture.spaces) then .err .logicError p
      else
        match transact (dlit2 "wood" (-(newFenceCount p ps)) "fences_avail"
            (-(newFenceCount p ps))) [] p with
        | .err e q => .err e q
        | .ok q => .ok { q with pastures := q.pastures ++ ps }

/-- `Player.build_stables`: `spaces[0]` raises IndexError on an empty request;
spatial check with `omit=['pasture']`, connectivity over the whole stable
group, then pay wood and stable stock, then extend in place. -/
def buildStablesRun (p : Player) (spaces : List Coord) (unitCost : Int) : PRun :=
  match spaces with
  | [] => .err .indexError p
  | _ :: _ =>
    match checkSpatial p spaces true false with
    | some e => .err e p
    | none =>
      if !connectedNodes (p.stables ++ spaces) then .err .logicError p
      else
        match transact (dlit2 "wood" (-(unitCost * (spaces.length : Int)))
            "stables_avail" (-(spaces.length : Int))) [] p with
        | .err e q => .err e q
        | .ok q => .ok { q with stables := q.stables ++ spaces }

/-- `Player.plow_fields`: empty request raises IndexError at `spaces[0]`;
spatial check, connectivity over old and new fields, then extend in place
with fresh empty fields. No resources change. -/
def plowFieldsRun (p : Player) (spaces : List Coord) : PRun :=
  match spaces with
  | [] => .err .indexError p
  | _ :: _ =>
    match checkSpatial p spaces false false with
    | some e => .err e p
    | none =>
      if !connectedNodes (p.fieldsL.map Field.space ++ spaces) then .err .logicError p
      else .ok { p with fieldsL :=
        p.fieldsL ++ spaces.map fun s => { space := s, nItems := 0, kind := none } }

/-- The planting loop of `sow`: the generator over fields with
`is_empty()` (`n_items == 0`), `plant_grain` on the first `nGrain` pulls and
`plant_veg` on the next `nVeg`. Returns the field list after the loop and
the pulls still owed when the generator ran dry (StopIteration). -/
def plantFieldsAux : List Field → Nat → Nat → List Field × Nat × Nat
  | [], ng, nv => ([], ng, nv)
  | f :: fs, ng, nv =>
    if f.nItems == 0 then
      if 0 < ng then
        ({ f with nItems := 3, kind := some "grain" } :: (plantFieldsAux fs (ng - 1) nv).1,
          (plantFieldsAux fs (ng - 1) nv).2)
      else if 0 < nv then
        ({ f with nItems := 2, kind := some "veg" } :: (plantFieldsAux fs 0 (nv - 1)).1,
          (plantFieldsAux fs 0 (nv - 1)).2)
      else (f :: fs, 0, 0)
    else
      (f :: (plantFieldsAux fs ng nv).1, (plantFieldsAux fs ng nv).2)

/-- `Player.sow`: one transaction deducting grain and veg with the explicit
`empty_fields` prereq, then the planting loop. An exhausted generator
after the transaction leaves the deduction and the partial planting. -/
def sowRun (p : Player) (nGrain nVeg : Nat) : PRun :=
  match transact (dlit2 "grain" (-(nGrain : Int)) "veg" (-(nVeg : Int)))
      [("empty_fields", (nGrain : Int) + (nVeg : Int))] p with
  | .err e q => .err e q
  | .ok q =>
    if (plantFieldsAux q.fieldsL nGrain nVeg).2 = (0, 0) then
      .ok { q with fieldsL := (plantFieldsAux q.fieldsL nGrain nVeg).1 }
    else .err .stopIteration { q with fieldsL := (plantFieldsAux q.fieldsL nGrain nVeg).1 }

/-- `Player.bake_bread` begins with `n > len(self.bread_rates-1)`:
`self.bread_rates` is a list, so `self.bread_rates - 1` raises TypeError on
every call, before anything else happens. -/
def bakeBreadRun (p : Player) (_ : Nat) : PRun := .err .typeError p

/-- `self.cooking_rates` as `__init__` fixes it (nothing in the repository
changes it). -/
def cookingRates : String → Option Int
  | "grain" => some 1
  | "veg" => some 1
  | "sheep" => some 0
  | "boar" => some 0
  | "cattle" => some 0
  | _ => none

/-- The change-dict construction loop of `cook_food`: starting from
`{'food': 0}`, set `change[r] = -c` then `change['food'] += cooking_rates[r]`
(KeyError for an unknown resource, before any state is touched). -/
def buildCookChange : List (String × Int) → Dict → Except AgricolaError Dict
  | [], ch => .ok ch
  | (r, c) :: rest, ch =>
    let ch1 := dset ch r (-c)
    match cookingRates r with
    | none => .error .keyError
    | some rate => buildCookChange rest (dset ch1 "food" ((dget ch1 "food").getD 0 + rate))

/-- `Player.cook_food`: build the change dict, then one transaction. -/
def cookFoodRun (p : Player) (counts : List (String × Int)) : PRun :=
  match buildCookChange counts [("food", 0)] with
  | .error e => .err e p
  | .ok ch => transact ch [] p

/-- `Player.add_people`: guard then two in-place updates. -/
def addPeopleRun (p : Player) (n : Int) : PRun :=
  if p.peopleAvail < n then .err .impossible p
  else .ok { p with people := p.people + n, peopleAvail := p.peopleAvail - n }

/-- `Player._check_animal_capacity` reads `self.n_free_stables`; `Player`
defines only the property `free_stables`, and `__getattr__` falls through to
`__getattribute__` for unknown names, so every call raises AttributeError
before the solver is reached. -/
def checkAnimalCapacityRun (_ : Player) : Except AgricolaError Unit :=
  .error .attributeError

/-- `Player.add_animals` over the kwargs items: per animal, validate the
name, run the capacity check, then increment — the increment is never
reached because the capacity check always raises. -/
def addAnimalsRun : Player → List (String × Int) → PRun
  | p, [] => .ok p
  | p, (a, c) :: rest =>
    if a == "sheep" || a == "boar" || a == "cattle" then
      match checkAnimalCapacityRun p with
      | .error e => .err e p
      | .ok _ =>
        match settableOf a with
        | some sk => addAnimalsRun (setS p sk (getS p sk + c)) rest
        | none => .err .attributeError p
    else .err .poorlyFormed p

/-- The board-mutating operations the atomicity claim ranges over. -/
inductive Op where
  | buildRooms (spaces : List Coord)
  | buildPastures (groups : List (List Coord))
  | buildStables (spaces : List Coord) (unitCost : Int)
  | plowFields (spaces : List Coord)
  | sow (nGrain nVeg : Nat)
  | bakeBread (n : Nat)
  | cookFood (counts : List (String × Int))
  | addPeople (n : Int)
  | addAnimals (animals : List (String × Int))

/-- Dispatch an operation. -/
def runOp : Op → Player → PRun
  | .buildRooms s, p => buildRoomsRun p s
  | .buildPastures g, p => buildPasturesRun p g
  | .buildStables s c, p => buildStablesRun p s c
  | .plowFields s, p => plowFieldsRun p s
  | .sow ng nv, p => sowRun p ng nv
  | .bakeBread n, p => bakeBreadRun p n
  | .cookFood counts, p => cookFoodRun p counts
  | .addPeople n, p => addPeopleRun p n
  | .addAnimals l, p => addAnimalsRun p l

/-- `Player.__init__` with all defaults: two connected rooms, nothing else. -/
def defaultPlayer : Player :=
  { shape := (3, 5), houseType := "wood",
    food := 0, wood := 0, clay := 0, stone := 0, reed := 0, grain := 0, veg := 0,
    sheep := 0, boar := 0, cattle := 0,
    fencesAvail := 15, stablesAvail := 4, people := 2, peopleAvail := 3,
    rooms := [(0, 0), (0, 1)], fieldsL := [], pastures := [], occupiedPastures := [],
    stables := [], breadRates := [0], roomCost := 5 }

theorem canSatisfy_nil (C : Multiset Nat) : CanSatisfy [] C :=
  ⟨[], List.Forall₂.nil, by simp⟩

theorem msum_le_of_le {s t : Multiset Nat} (h : s ≤ t) : s.sum ≤ t.sum := by
  obtain ⟨u, rfl⟩ := Multiset.le_iff_exists_add.mp h
  simp

theorem forall2_sum_le (gs : List Nat) (parts : List (Multiset Nat))
    (h : List.Forall₂ (fun g P => g ≤ Multiset.sum P) gs parts) :
    gs.sum ≤ (List.sum parts).sum := by
  induction h with
  | nil => simp
  | cons hgp _ ih =>
    simp only [List.sum_cons, Multiset.sum_add]
    omega

theorem multiset_satisfy_sound :
    ∀ (gs caps : List Nat), multiset_satisfy gs caps = true → CanSatisfy gs (↑caps) := by
  intro gs
  induction gs with
  | nil => exact fun caps _ => canSatisfy_nil _
  | cons c cs ih =>
    intro caps h
    cases cs with
    | nil =>
      refine ⟨[(↑caps : Multiset Nat)], ?_, by simp⟩
      rw [multiset_satisfy_single, decide_eq_true_eq] at h
      exact List.Forall₂.cons (by simpa [Multiset.sum_coe] using h) List.Forall₂.nil
    | cons c' cs' =>
      rw [multiset_satisfy_cons] at h
      split at h
      · cases h
      · rw [List.any_eq_true] at h
        obtain ⟨s, hs, hcond⟩ := h
        rw [Bool.and_eq_true, decide_eq_true_eq] at hcond
        obtain ⟨hws, hrec⟩ := hcond
        obtain ⟨parts', hf, hle⟩ := ih (caps.diff s) hrec
        have hsub : List.Sublist s caps := List.mem_sublists.mp hs
        have h1 : (↑s : Multiset Nat) ≤ ↑caps := Multiset.coe_le.mpr hsub.subperm
        have h2 : (↑(caps.diff s) : Multiset Nat) = (↑caps : Multiset Nat) - ↑s :=
          (Multiset.coe_sub caps s).symm
        refine ⟨(↑s : Multiset Nat) :: parts', ?_, ?_⟩
        · exact List.Forall₂.cons (by simpa [Multiset.sum_coe] using hws) hf
        · rw [List.sum_cons]
          calc (↑s : Multiset Nat) + parts'.sum
              ≤ ↑s + ((↑caps : Multiset Nat) - ↑s) := by
                exact add_le_add_left (h2 ▸ hle) _
            _ = ↑caps := add_tsub_cancel_of_le h1

theorem multiset_satisfy_complete :
    ∀ (gs caps : List Nat), CanSatisfy gs (↑caps) → multiset_satisfy gs caps = true := by
  intro gs
  induction gs with
  | nil => intro caps _; rfl
  | cons c cs ih =>
    intro caps hcan
    obtain ⟨parts, hf, hle⟩ := hcan
    obtain ⟨P, parts', rfl, hcP, hf'⟩ :
        ∃ P parts'', parts = P :: parts'' ∧ c ≤ P.sum ∧
          List.Forall₂ (fun g Q => g ≤ Multiset.sum Q) cs parts'' := by
      cases hf with
      | cons h1 h2 => exact ⟨_, _, rfl, h1, h2⟩
    rw [List.sum_cons] at hle
    have hPle : P ≤ (↑caps : Multiset Nat) := le_trans (Multiset.le_add_right _ _) hle
    cases cs with
    | nil =>
      rw [multiset_satisfy_single, decide_eq_true_eq]
      have := msum_le_of_le hPle
      rw [Multiset.sum_coe] at this
      omega
    | cons c' cs' =>
      rw [multiset_satisfy_cons]
      have hsumle : c + (c' :: cs').sum ≤ caps.sum := by
        have h1 : (c :: c' :: cs').sum ≤ (List.sum (P :: parts')).sum :=
          forall2_sum_le _ _ (List.Forall₂.cons hcP hf')
        have h2 := msum_le_of_le hle
        rw [Multiset.sum_coe] at h2
        rw [List.sum_cons] at h1 ⊢
        simp only [List.sum_cons, Multiset.sum_add] at h1 h2
        omega
      rw [if_neg (by omega)]
      rw [List.any_eq_true]
      obtain ⟨l, hlperm⟩ := Quotient.exists_rep P
      have hlP : (↑l : Multiset Nat) = P := hlperm
      obtain ⟨l', hl'perm, hl'sub⟩ : List.Subperm l caps := by
        rw [← Multiset.coe_le, hlP]; exact hPle
      refine ⟨l', List.mem_sublists.mpr hl'sub, ?_⟩
      rw [Bool.and_eq_true, decide_eq_true_eq]
      have hl'P : (↑l' : Multiset Nat) = P := by
        rw [← hlP]; exact Quot.sound hl'perm
      constructor
      · have : (↑l' : Multiset Nat).sum = P.sum := by rw [hl'P]
        rw [Multiset.sum_coe] at this
        omega
      · apply ih
        refine ⟨parts', hf', ?_⟩
        have hd : (↑(caps.diff l') : Multiset Nat) = (↑caps : Multiset Nat) - ↑l' :=
          (Multiset.coe_sub caps l').symm
        rw [hd, hl'P]
        exact le_tsub_of_add_le_left hle

/-- C3: for every list of required group sizes and every capacity multiset,
`multiset_satisfy` returns true iff the capacities can be split into
pairwise-disjoint sub-multisets, one per requirement under some bijection,
each of total weight at least its assigned requirement; the empty requirement
list is always satisfiable, and a single requirement is satisfiable iff the
total weight is at least that requirement. -/
theorem c3_capacity_solver_correct (gs caps : List Nat) :
    (multiset_satisfy gs caps = true ↔ CanSatisfy gs (↑caps)) ∧
    multiset_satisfy [] caps = true ∧
    ∀ g : Nat, (multiset_satisfy [g] caps = true ↔ g ≤ caps.sum) :=
  ⟨⟨multiset_satisfy_sound gs caps, multiset_satisfy_complete gs caps⟩,
   rfl,
   fun g => by rw [multiset_satisfy_single, decide_eq_true_eq]⟩

/-- C4 counterexample: the claim calls requirement list [2,2] on capacities
{1,1,2} unsatisfiable, but the solver accepts it — and rightly so, since the
split into the parts {2} and {1,1} (weights 2 and 2) meets the solver's
acceptance criterion. -/
theorem c4_counterexample :
    multiset_satisfy [2, 2] [1, 1, 2] = true ∧ CanSatisfy [2, 2] (↑[1, 1, 2]) :=
  ⟨by decide,
   ⟨[(↑[2] : Multiset Nat), (↑[1, 1] : Multiset Nat)],
    List.Forall₂.cons (by decide) (List.Forall₂.cons (by decide) List.Forall₂.nil),
    by decide⟩⟩

/-- C4 amended: on the capacity multiset {1,1,2}, requirement list [1,1] is
satisfiable, requirement list [3] is satisfiable, and requirement list [2,2]
is also satisfiable (parts {2} and {1,1}). -/
theorem c4_examples :
    multiset_satisfy [1, 1] [1, 1, 2] = true ∧
    multiset_satisfy [3] [1, 1, 2] = true ∧
    multiset_satisfy [2, 2] [1, 1, 2] = true := by
  refine ⟨by decide, by decide, by decide⟩

theorem getS_setS (p : Player) (sk sk' : SKey) (v : Int) :
    getS (setS p sk v) sk' = if sk' = sk then v else getS p sk' := by
  cases sk <;> cases sk' <;> simp [getS, setS]

theorem settableOf_skName (sk : SKey) : settableOf (skName sk) = some sk := by
  cases sk <;> rfl

theorem skName_of_settableOf {k : String} {sk : SKey} (h : settableOf k = some sk) :
    k = skName sk := by
  unfold settableOf at h
  split at h <;> simp_all only [Option.some.injEq, reduceCtorEq] <;> subst h <;> rfl

theorem setS_shape (p : Player) (sk : SKey) (v : Int) : (setS p sk v).shape = p.shape := by
  cases sk <;> rfl

theorem setS_houseType (p : Player) (sk : SKey) (v : Int) :
    (setS p sk v).houseType = p.houseType := by
  cases sk <;> rfl

theorem setS_rooms (p : Player) (sk : SKey) (v : Int) : (setS p sk v).rooms = p.rooms := by
  cases sk <;> rfl

theorem setS_fieldsL (p : Player) (sk : SKey) (v : Int) : (setS p sk v).fieldsL = p.fieldsL := by
  cases sk <;> rfl

theorem setS_pastures (p : Player) (sk : SKey) (v : Int) :
    (setS p sk v).pastures = p.pastures := by
  cases sk <;> rfl

theorem setS_occupiedPastures (p : Player) (sk : SKey) (v : Int) :
    (setS p sk v).occupiedPastures = p.occupiedPastures := by
  cases sk <;> rfl

theorem setS_stables (p : Player) (sk : SKey) (v : Int) :
    (setS p sk v).stables = p.stables := by
  cases sk <;> rfl

theorem setS_breadRates (p : Player) (sk : SKey) (v : Int) :
    (setS p sk v).breadRates = p.breadRates := by
  cases sk <;> rfl

theorem setS_roomCost (p : Player) (sk : SKey) (v : Int) :
    (setS p sk v).roomCost = p.roomCost := by
  cases sk <;> rfl

theorem dget_dset_same (l : Dict) (k : String) (v : Int) : dget (dset l k v) k = some v := by
  induction l with
  | nil => simp [dget, dset]
  | cons kv rest ih =>
    obtain ⟨k', v'⟩ := kv
    by_cases h : k' = k <;> simp [dget, dset, h, ih]

theorem dget_dset_ne (l : Dict) (k k' : String) (v : Int) (h : k' ≠ k) :
    dget (dset l k v) k' = dget l k' := by
  induction l with
  | nil => simp [dget, dset, Ne.symm h]
  | cons kv rest ih =>
    obtain ⟨k0, v0⟩ := kv
    by_cases h0 : k0 = k
    · subst h0
      have hne : k0 ≠ k' := fun hh => h hh.symm
      simp only [dset, if_pos rfl, dget, if_neg hne]
    · simp only [dset, if_neg h0, dget, ih]

theorem dget_mem {l : Dict} {k : String} {v : Int} (h : dget l k = some v) : (k, v) ∈ l := by
  induction l with
  | nil => simp [dget] at h
  | cons kv rest ih =>
    obtain ⟨k0, v0⟩ := kv
    by_cases h0 : k0 = k
    · subst h0
      simp [dget] at h
      simp [h]
    · simp only [dget, if_neg h0] at h
      exact List.mem_cons_of_mem _ (ih h)

theorem pgetattrR_settable {k : String} {sk : SKey} (h : settableOf k = some sk) (p : Player) :
    pgetattrR p k = some (.int (getS p sk)) := by
  unfold pgetattrR; rw [h]

theorem psetattr_settable {k : String} {sk : SKey} (h : settableOf k = some sk)
    (p : Player) (v : Int) : psetattr p k v = some (setS p sk v) := by
  unfold psetattr; rw [h]; rfl

theorem psetattr_unsettable {k : String} (h : settableOf k = none) (p : Player) (v : Int) :
    psetattr p k v = none := by
  unfold psetattr; rw [h]; rfl

theorem skName_inj {a b : SKey} (h : skName a = skName b) : a = b := by
  have h2 := congrArg settableOf h
  rw [settableOf_skName, settableOf_skName] at h2
  exact Option.some.inj h2

theorem applyChange_cons_settable {k : String} {sk : SKey} (h : settableOf k = some sk)
    (v : Int) (rest : Dict) (p : Player) :
    applyChange ((k, v) :: rest) p = applyChange rest (setS p sk (v + getS p sk)) := by
  simp only [applyChange, pgetattrR_settable h, psetattr_settable h]

theorem applyChange_head_unsettable {k : String} (h : settableOf k = none)
    (v : Int) (rest : Dict) (p : Player) :
    ∃ e, applyChange ((k, v) :: rest) p = .err e p := by
  simp only [applyChange, pgetattrR, h]
  cases hd : derivedGet p k with
  | none => exact ⟨.attributeError, rfl⟩
  | some gr =>
    cases gr with
    | nonInt => exact ⟨.typeError, rfl⟩
    | int a =>
      simp only [psetattr_unsettable h]
      exact ⟨.attributeError, rfl⟩

theorem applyChange_ok_settable :
    ∀ (l : Dict) (p : Player), (∀ kv ∈ l, (settableOf kv.1).isSome) →
      ∃ q, applyChange l p = .ok q := by
  intro l
  induction l with
  | nil => exact fun p _ => ⟨p, rfl⟩
  | cons kv rest ih =>
    intro p hset
    obtain ⟨k, v⟩ := kv
    have h1 : (settableOf k).isSome := hset _ (List.mem_cons_self _ _)
    obtain ⟨sk, hsk⟩ := Option.isSome_iff_exists.mp h1
    obtain ⟨q, hq⟩ := ih (setS p sk (v + getS p sk))
      (fun kv h => hset kv (List.mem_cons_of_mem _ h))
    exact ⟨q, by rw [applyChange_cons_settable hsk]; exact hq⟩

theorem applyChange_err_tail (l : Dict) (p : Player)
    (hset : ∀ kv ∈ l.tail, (settableOf kv.1).isSome)
    {e : AgricolaError} {q : Player} (h : applyChange l p = .err e q) : q = p := by
  cases l with
  | nil => cases h
  | cons kv rest =>
    obtain ⟨k, v⟩ := kv
    cases hsk : settableOf k with
    | none =>
      obtain ⟨e', he'⟩ := applyChange_head_unsettable hsk v rest p
      rw [he'] at h
      cases h
      rfl
    | some sk =>
      obtain ⟨q', hq'⟩ := applyChange_ok_settable rest (setS p sk (v + getS p sk)) hset
      rw [applyChange_cons_settable hsk, hq'] at h
      cases h

theorem dget_not_mem : ∀ (l : Dict) (k : String), k ∉ l.map Prod.fst → dget l k = none := by
  intro l
  induction l with
  | nil => intro k _; rfl
  | cons kv rest ih =>
    intro k hk
    obtain ⟨k0, v0⟩ := kv
    simp only [List.map_cons, List.mem_cons] at hk
    push_neg at hk
    rw [dget, if_neg (fun he => hk.1 he.symm)]
    exact ih k hk.2

theorem applyChange_getS :
    ∀ (l : Dict) (p q : Player), (l.map Prod.fst).Nodup →
      applyChange l p = .ok q →
      ∀ sk : SKey, getS q sk = getS p sk + (dget l (skName sk)).getD 0 := by
  intro l
  induction l with
  | nil =>
    intro p q _ h sk
    cases h
    simp [dget]
  | cons kv rest ih =>
    intro p q hnd h sk
    obtain ⟨k, v⟩ := kv
    simp only [List.map_cons, List.nodup_cons] at hnd
    cases hsk : settableOf k with
    | none =>
      obtain ⟨e', he'⟩ := applyChange_head_unsettable hsk v rest p
      rw [he'] at h
      cases h
    | some sk' =>
      rw [applyChange_cons_settable hsk] at h
      have hkey : k = skName sk' := skName_of_settableOf hsk
      by_cases hks : sk' = sk
      · subst hks
        have hnotin : skName sk' ∉ rest.map Prod.fst := hkey ▸ hnd.1
        have hq := ih _ _ hnd.2 h sk'
        rw [dget_not_mem rest _ hnotin] at hq
        rw [hq, getS_setS, if_pos rfl, dget, if_pos hkey]
        simp only [Option.getD_none, Option.getD_some, add_zero]
        omega
      · have hq := ih _ _ hnd.2 h sk
        have hkne : k ≠ skName sk := by
          intro he
          exact hks (skName_inj (hkey.symm.trans he))
        rw [hq, getS_setS, if_neg (fun he => hks he.symm), dget, if_neg hkne]

theorem applyChange_fieldsL :
    ∀ (l : Dict) (p q : Player), applyChange l p = .ok q → q.fieldsL = p.fieldsL := by
  intro l
  induction l with
  | nil => intro p q h; cases h; rfl
  | cons kv rest ih =>
    intro p q h
    obtain ⟨k, v⟩ := kv
    cases hsk : settableOf k with
    | none =>
      obtain ⟨e', he'⟩ := applyChange_head_unsettable hsk v rest p
      rw [he'] at h; cases h
    | some sk =>
      rw [applyChange_cons_settable hsk] at h
      rw [ih _ _ h, setS_fieldsL]

theorem transact_ok_inv {change prereq : Dict} {p q : Player}
    (h : transact change prereq p = .ok q) :
    checkPrereqs (buildPrereq change prereq) p = none ∧ applyChange change p = .ok q := by
  unfold transact at h
  split at h
  · cases h
  · cases hc : checkPrereqs (buildPrereq change prereq) p with
    | some e => rw [hc] at h; cases h
    | none => rw [hc] at h; exact ⟨rfl, h⟩

theorem transact_err_tail {change prereq : Dict} {p : Player}
    (hset : ∀ kv ∈ change.tail, (settableOf kv.1).isSome)
    {e : AgricolaError} {q : Player} (h : transact change prereq p = .err e q) : q = p := by
  unfold transact at h
  split at h
  · cases h; rfl
  · cases hc : checkPrereqs (buildPrereq change prereq) p with
    | some e' => rw [hc] at h; cases h; rfl
    | none => rw [hc] at h; exact applyChange_err_tail change p hset h

theorem checkPrereqs_none_mem :
    ∀ (pr : Dict) (p : Player), checkPrereqs pr p = none →
      ∀ kv ∈ pr, ∃ a, pgetattrR p kv.1 = some (.int a) ∧ kv.2 ≤ a := by
  intro pr p
  induction pr with
  | nil => intro _ kv hm; cases hm
  | cons kv0 rest ih =>
    intro h kv hm
    obtain ⟨k0, v0⟩ := kv0
    cases hga : pgetattrR p k0 with
    | none => simp [checkPrereqs, hga] at h
    | some gr =>
      cases gr with
      | nonInt => simp [checkPrereqs, hga] at h
      | int a =>
        simp only [checkPrereqs, hga] at h
        split at h
        · cases h
        · rcases List.mem_cons.mp hm with hm0 | hm'
          · subst hm0
            exact ⟨a, hga, by omega⟩
          · exact ih h kv hm'

theorem checkPrereqs_fail (pr : Dict) (p : Player) (k : String) (w a : Int)
    (hg : dget pr k = some w) (hp : pgetattrR p k = some (.int a)) (hlt : a < w) :
    ∃ e, checkPrereqs pr p = some e := by
  cases hc : checkPrereqs pr p with
  | some e => exact ⟨e, rfl⟩
  | none =>
    obtain ⟨a', ha', hle⟩ := checkPrereqs_none_mem pr p hc _ (dget_mem hg)
    rw [hp] at ha'
    cases ha'
    omega

theorem buildPrereq_not_mem_key :
    ∀ (change pr : Dict) (k : String), k ∉ change.map Prod.fst →
      dget (buildPrereq change pr) k = dget pr k := by
  intro change
  induction change with
  | nil => intro pr k _; rfl
  | cons kv rest ih =>
    intro pr k hk
    obtain ⟨k0, v0⟩ := kv
    simp only [List.map_cons, List.mem_cons] at hk
    push_neg at hk
    rw [buildPrereq, ih _ _ hk.2]
    split
    · exact dget_dset_ne _ _ _ _ hk.1
    · rfl

theorem buildPrereq_neg :
    ∀ (change pr : Dict) (k : String) (v : Int),
      (change.map Prod.fst).Nodup → (k, v) ∈ change → v < 0 →
      dget (buildPrereq change pr) k = some ((dget pr k).getD 0 - v) := by
  intro change
  induction change with
  | nil => intro pr k v _ hm; cases hm
  | cons kv rest ih =>
    intro pr k v hnd hm hv
    obtain ⟨k0, v0⟩ := kv
    simp only [List.map_cons, List.nodup_cons] at hnd
    rcases List.mem_cons.mp hm with heq | hm'
    · cases heq
      rw [buildPrereq, if_pos hv,
        buildPrereq_not_mem_key rest _ k hnd.1, dget_dset_same]
    · have hk0 : k ≠ k0 := by
        intro he
        subst he
        exact hnd.1 (List.mem_map_of_mem Prod.fst hm')
      rw [buildPrereq, ih _ _ _ hnd.2 hm' hv]
      have hdg : dget (if v0 < 0 then dset pr k0 ((dget pr k0).getD 0 - v0) else pr) k
          = dget pr k := by
        split
        · exact dget_dset_ne _ _ _ _ hk0
        · rfl
      rw [hdg]

theorem transact_preserves_nonneg (sc : SC) (p q : Player)
    (hwf : SCWf sc) (h0 : AllNonneg p) (h : runSC sc p = .ok q) : AllNonneg q := by
  obtain ⟨hnd, _, hprnn⟩ := hwf
  obtain ⟨hchk, happ⟩ := transact_ok_inv h
  intro sk htr
  have hq := applyChange_getS sc.change p q hnd happ sk
  cases hv : dget sc.change (skName sk) with
  | none =>
    rw [hv] at hq
    simpa [hq] using h0 sk htr
  | some v =>
    rw [hv] at hq
    simp only [Option.getD_some] at hq
    by_cases hneg : v < 0
    · have hpr := buildPrereq_neg sc.change sc.prereq (skName sk) v hnd (dget_mem hv) hneg
      obtain ⟨a, ha, hle⟩ := checkPrereqs_none_mem _ p hchk _ (dget_mem hpr)
      rw [pgetattrR_settable (settableOf_skName sk) p] at ha
      cases ha
      have hexp : 0 ≤ (dget sc.prereq (skName sk)).getD 0 := by
        cases he : dget sc.prereq (skName sk) with
        | none => simp
        | some w => simpa using hprnn _ (dget_mem he)
      simp only at hle
      omega
    · have := h0 sk htr
      omega

theorem runSeq_append (l1 l2 : List SC) (p : Player) {q : Player}
    (h : runSeq (l1 ++ l2) p = .ok q) :
    ∃ r, runSeq l1 p = .ok r ∧ runSeq l2 r = .ok q := by
  induction l1 generalizing p with
  | nil => exact ⟨p, rfl, h⟩
  | cons sc rest ih =>
    rw [List.cons_append, runSeq] at h
    cases hr : runSC sc p with
    | ok r =>
      rw [hr] at h
      obtain ⟨r2, h1, h2⟩ := ih r h
      exact ⟨r2, by rw [runSeq, hr]; exact h1, h2⟩
    | err e r => rw [hr] at h; cases h

theorem runSeq_preserves_nonneg :
    ∀ (scs : List SC) (p q : Player), (∀ sc ∈ scs, SCWf sc) → AllNonneg p →
      runSeq scs p = .ok q → AllNonneg q := by
  intro scs
  induction scs with
  | nil => intro p q _ h0 h; cases h; exact h0
  | cons sc rest ih =>
    intro p q hwf h0 h
    rw [runSeq] at h
    cases hr : runSC sc p with
    | ok r =>
      rw [hr] at h
      exact ih r q (fun s hs => hwf s (List.mem_cons_of_mem _ hs))
        (transact_preserves_nonneg sc p r (hwf sc (List.mem_cons_self _ _)) h0 hr) h
    | err e r => rw [hr] at h; cases h

theorem transact_rejects (sc : SC) (p : Player) (sk : SKey) (v : Int)
    (hwf : SCWf sc) (hm : (skName sk, v) ∈ sc.change) (hneg : v < 0)
    (hlow : getS p sk < -v) : ∃ e, runSC sc p = .err e p := by
  obtain ⟨hnd, _, hprnn⟩ := hwf
  unfold runSC transact
  split
  · exact ⟨.logicError, rfl⟩
  · have hpr := buildPrereq_neg sc.change sc.prereq (skName sk) v hnd hm hneg
    have hexp : 0 ≤ (dget sc.prereq (skName sk)).getD 0 := by
      cases he : dget sc.prereq (skName sk) with
      | none => simp
      | some w => simpa using hprnn _ (dget_mem he)
    obtain ⟨e, he⟩ := checkPrereqs_fail _ p (skName sk) _ (getS p sk) hpr
      (pgetattrR_settable (settableOf_skName sk) p) (by omega)
    rw [he]
    exact ⟨e, rfl⟩

/-- C2: starting from a ledger in which every tracked resource is
non-negative, every successfully-applied sequence of transactions keeps every
tracked resource non-negative after each transaction (first conjunct, with
`l1` an arbitrary leading segment of the sequence); and a transaction whose
delta would take a tracked resource below zero is rejected — the completed
prereq dict carries the implicit precondition `current ≥ |delta|`, the check
fails, and the board is returned unchanged rather than clamped (second
conjunct). Transaction well-formedness (`SCWf`) states what holds of every
transaction the program builds: dict keys are unique and explicit prereq
amounts are non-negative. -/
theorem c2_ledger_nonneg :
    (∀ (l1 l2 : List SC) (p q : Player),
      (∀ sc ∈ l1 ++ l2, SCWf sc) → AllNonneg p → runSeq (l1 ++ l2) p = .ok q →
        (∃ r, runSeq l1 p = .ok r ∧ AllNonneg r) ∧ AllNonneg q) ∧
    (∀ (sc : SC) (p : Player) (sk : SKey) (v : Int),
      SCWf sc → sk.tracked → (skName sk, v) ∈ sc.change → v < 0 → getS p sk < -v →
        ∃ e, runSC sc p = .err e p) := by
  constructor
  · intro l1 l2 p q hwf h0 h
    obtain ⟨r, h1, _⟩ := runSeq_append l1 l2 p h
    refine ⟨⟨r, h1, ?_⟩, runSeq_preserves_nonneg _ p q hwf h0 h⟩
    exact runSeq_preserves_nonneg l1 p r
      (fun sc hs => hwf sc (List.mem_append_left _ hs)) h0 h1
  · intro sc p sk v hwf _ hm hneg hlow
    exact transact_rejects sc p sk v hwf hm hneg hlow

theorem dlit2_eq (k1 : String) (v1 : Int) (k2 : String) (v2 : Int) :
    dlit2 k1 v1 k2 v2 = if k1 = k2 then [(k2, v2)] else [(k1, v1), (k2, v2)] := by
  unfold dlit2
  simp only [dset]

theorem settable_reed : settableOf "reed" = some SKey.reed := rfl

theorem settable_fencesAvail : settableOf "fences_avail" = some SKey.fencesAvail := rfl

theorem settable_stablesAvail : settableOf "stables_avail" = some SKey.stablesAvail := rfl

theorem settable_veg : settableOf "veg" = some SKey.veg := rfl

theorem tail_settable_pair {kB : String} {skB : SKey} (hB : settableOf kB = some skB)
    (kA : String) (vA vB : Int) :
    ∀ kv ∈ (dlit2 kA vA kB vB).tail, (settableOf kv.1).isSome := by
  rw [dlit2_eq]
  split
  · intro kv hkv
    cases hkv
  · intro kv hkv
    simp only [List.tail_cons, List.mem_singleton] at hkv
    subst hkv
    simp [hB]

theorem dset_mem :
    ∀ (l : Dict) (k : String) (v : Int) (kv : String × Int),
      kv ∈ dset l k v → kv.1 = k ∨ kv ∈ l := by
  intro l k v
  induction l with
  | nil =>
    intro kv h
    have he : kv = (k, v) := by simpa [dset] using h
    exact Or.inl (by rw [he])
  | cons kv0 rest ih =>
    intro kv h
    obtain ⟨k0, v0⟩ := kv0
    rw [dset] at h
    by_cases h0 : k0 = k
    · rw [if_pos h0] at h
      rcases List.mem_cons.mp h with h1 | h1
      · exact Or.inl (by rw [h1])
      · exact Or.inr (List.mem_cons_of_mem _ h1)
    · rw [if_neg h0] at h
      rcases List.mem_cons.mp h with h1 | h1
      · exact Or.inr (by rw [h1]; exact List.mem_cons_self _ _)
      · rcases ih kv h1 with h2 | h2
        · exact Or.inl h2
        · exact Or.inr (List.mem_cons_of_mem _ h2)

theorem cookingRates_settable {r : String} {rate : Int} (h : cookingRates r = some rate) :
    (settableOf r).isSome := by
  unfold cookingRates at h
  split at h <;> first | rfl | cases h

theorem buildCookChange_settable :
    ∀ (counts : List (String × Int)) (ch0 ch : Dict),
      (∀ kv ∈ ch0, (settableOf kv.1).isSome) →
      buildCookChange counts ch0 = .ok ch →
      ∀ kv ∈ ch, (settableOf kv.1).isSome := by
  intro counts
  induction counts with
  | nil =>
    intro ch0 ch h0 h
    cases h
    exact h0
  | cons rc rest ih =>
    intro ch0 ch h0 h
    obtain ⟨r, c⟩ := rc
    cases hcr : cookingRates r with
    | none => rw [buildCookChange, hcr] at h; cases h
    | some rate =>
      rw [buildCookChange, hcr] at h
      refine ih _ _ ?_ h
      intro kv hkv
      rcases dset_mem _ _ _ _ hkv with h1 | h1
      · rw [h1]; rfl
      · rcases dset_mem _ _ _ _ h1 with h2 | h2
        · rw [h2]; exact cookingRates_settable hcr
        · exact h0 _ h2

theorem buildRooms_err {p : Player} {spaces : List Coord} {e : AgricolaError} {q : Player}
    (h : buildRoomsRun p spaces = .err e q) : q = p := by
  unfold buildRoomsRun at h
  split at h
  · cases h; rfl
  · split at h
    · cases h; rfl
    · split at h
      · rename_i e2 q2 ht
        cases h
        exact transact_err_tail (tail_settable_pair settable_reed _ _ _) ht
      · cases h

theorem buildPastures_err {p : Player} {groups : List (List Coord)} {e : AgricolaError}
    {q : Player} (h : buildPasturesRun p groups = .err e q) : q = p := by
  unfold buildPasturesRun at h
  split at h
  · cases h; rfl
  · split at h
    · cases h; rfl
    · split at h
      · cases h; rfl
      · split at h
        · rename_i e2 q2 ht
          cases h
          exact transact_err_tail (tail_settable_pair settable_fencesAvail _ _ _) ht
        · cases h

theorem buildStables_err {p : Player} {spaces : List Coord} {c : Int} {e : AgricolaError}
    {q : Player} (h : buildStablesRun p spaces c = .err e q) : q = p := by
  unfold buildStablesRun at h
  split at h
  · cases h; rfl
  · split at h
    · cases h; rfl
    · split at h
      · cases h; rfl
      · split at h
        · rename_i e2 q2 ht
          cases h
          exact transact_err_tail (tail_settable_pair settable_stablesAvail _ _ _) ht
        · cases h

theorem plowFields_err {p : Player} {spaces : List Coord} {e : AgricolaError} {q : Player}
    (h : plowFieldsRun p spaces = .err e q) : q = p := by
  unfold plowFieldsRun at h
  split at h
  · cases h; rfl
  · split at h
    · cases h; rfl
    · split at h
      · cases h; rfl
      · cases h

theorem bakeBread_err {p : Player} {n : Nat} {e : AgricolaError} {q : Player}
    (h : bakeBreadRun p n = .err e q) : q = p := by
  cases h
  rfl

theorem cookFood_err {p : Player} {counts : List (String × Int)} {e : AgricolaError}
    {q : Player} (h : cookFoodRun p counts = .err e q) : q = p := by
  unfold cookFoodRun at h
  split at h
  · cases h; rfl
  · rename_i ch hbc
    have hall : ∀ kv ∈ ch, (settableOf kv.1).isSome := by
      refine buildCookChange_settable counts _ ch ?_ hbc
      intro kv hkv
      simp only [List.mem_singleton] at hkv
      subst hkv
      rfl
    exact transact_err_tail (fun kv hkv => hall kv (List.mem_of_mem_tail hkv)) h

theorem addPeople_err {p : Player} {n : Int} {e : AgricolaError} {q : Player}
    (h : addPeopleRun p n = .err e q) : q = p := by
  unfold addPeopleRun at h
  split at h
  · cases h; rfl
  · cases h

theorem addAnimals_err {p : Player} {l : List (String × Int)} {e : AgricolaError} {q : Player}
    (h : addAnimalsRun p l = .err e q) : q = p := by
  cases l with
  | nil => cases h
  | cons ac rest =>
    obtain ⟨a, c⟩ := ac
    rw [addAnimalsRun] at h
    split at h
    · cases h; rfl
    · cases h; rfl

theorem plantFieldsAux_enough :
    ∀ (fs : List Field) (ng nv : Nat),
      ng + nv ≤ (fs.filter fun f => f.nItems == 0).length →
      (plantFieldsAux fs ng nv).2 = (0, 0) := by
  intro fs
  induction fs with
  | nil =>
    intro ng nv hc
    simp only [List.filter_nil, List.length_nil, Nat.le_zero] at hc
    have h1 : ng = 0 := by omega
    have h2 : nv = 0 := by omega
    subst h1; subst h2
    rfl
  | cons f rest ih =>
    intro ng nv hc
    rw [List.filter_cons] at hc
    by_cases hni : (f.nItems == 0) = true
    · rw [if_pos hni, List.length_cons] at hc
      by_cases hg : 0 < ng
      · have hr := ih (ng - 1) nv (by omega)
        simp [plantFieldsAux, hni, hg, hr]
      · by_cases hv : 0 < nv
        · have hr := ih 0 (nv - 1) (by omega)
          simp [plantFieldsAux, hni, hg, hv, hr]
        · have h1 : ng = 0 := by omega
          have h2 : nv = 0 := by omega
          subst h1; subst h2
          simp [plantFieldsAux, hni]
    · rw [if_neg hni] at hc
      have hr := ih ng nv hc
      simp [plantFieldsAux, hni, hr]

theorem filter_empty_eq :
    ∀ (fs : List Field), (∀ f ∈ fs, Field.wf f) →
      (fs.filter fun f => f.nItems == 0).length
        = (fs.filter fun f => f.kind == none).length := by
  intro fs
  induction fs with
  | nil => intro _; rfl
  | cons f rest ih =>
    intro hw
    have hwf : Field.wf f := hw f (List.mem_cons_self _ _)
    have ihr := ih fun g hg => hw g (List.mem_cons_of_mem _ hg)
    rw [List.filter_cons, List.filter_cons]
    by_cases hni : f.nItems = 0
    · have hk : f.kind = none := hwf.mp hni
      rw [if_pos (by simp [hni]), if_pos (by simp [hk]), List.length_cons,
        List.length_cons, ihr]
    · have hk : f.kind ≠ none := fun hh => hni (hwf.mpr hh)
      rw [if_neg (by simp [hni]), if_neg (by simp [hk]), ihr]

theorem sow_err {p : Player} {ng nv : Nat} (hw : ∀ f ∈ p.fieldsL, Field.wf f)
    {e : AgricolaError} {q : Player} (h : sowRun p ng nv = .err e q) : q = p := by
  unfold sowRun at h
  split at h
  · rename_i e2 q2 ht
    cases h
    exact transact_err_tail (tail_settable_pair settable_veg _ _ _) ht
  · rename_i q2 ht
    split at h
    · cases h
    · rename_i hnz
      exfalso
      obtain ⟨hchk, happ⟩ := transact_ok_inv ht
      have hkeys : "empty_fields"
          ∉ ((dlit2 "grain" (-(ng : Int)) "veg" (-(nv : Int))).map Prod.fst) := by
        rw [dlit2_eq, if_neg (by decide)]
        simp
      have hmem : dget (buildPrereq (dlit2 "grain" (-(ng : Int)) "veg" (-(nv : Int)))
          [("empty_fields", (ng : Int) + (nv : Int))]) "empty_fields"
          = some ((ng : Int) + nv) := by
        rw [buildPrereq_not_mem_key _ _ _ hkeys]
        rfl
      obtain ⟨a, ha, hle⟩ := checkPrereqs_none_mem _ p hchk _ (dget_mem hmem)
      have hget : pgetattrR p "empty_fields" = some (.int (emptyFieldsCount p)) := rfl
      rw [hget] at ha
      cases ha
      have hfl : q2.fieldsL = p.fieldsL := applyChange_fieldsL _ _ _ happ
      have hcnt : ng + nv ≤ (q2.fieldsL.filter fun f => f.nItems == 0).length := by
        rw [hfl, filter_empty_eq p.fieldsL hw]
        have hle2 : ((ng : Int) + nv) ≤ (emptyFieldsCount p : Int) := hle
        unfold emptyFieldsCount at hle2
        omega
      exact hnz (plantFieldsAux_enough q2.fieldsL ng nv hcnt)

/-- C1: for every board-mutating operation (build rooms/pastures/stables,
plow, sow, bake bread, cook food, add people, add animals) and every board
state whose fields satisfy the `Field` constructor invariant, if the
operation raises any error then the player state carried out by the exception
is exactly the state before the attempt: no partial application. -/
theorem c1_failed_ops_atomic (op : Op) (p : Player)
    (hw : ∀ f ∈ p.fieldsL, Field.wf f) (e : AgricolaError) (q : Player)
    (h : runOp op p = .err e q) : q = p := by
  cases op with
  | buildRooms s => exact buildRooms_err h
  | buildPastures g => exact buildPastures_err h
  | buildStables s c => exact buildStables_err h
  | plowFields s => exact plowFields_err h
  | sow ng nv => exact sow_err hw h
  | bakeBread n => exact @bakeBread_err p n e q h
  | cookFood counts => exact cookFood_err h
  | addPeople n => exact addPeople_err h
  | addAnimals l => exact addAnimals_err h

/-- A demo board: the default player with one grain, one veg and two empty
fields plowed at (1,0) and (1,1). -/
def sowDemoPlayer : Player :=
  { defaultPlayer with
    grain := 1
    veg := 1
    fieldsL := [{ space := (1, 0), nItems := 0, kind := none },
                { space := (1, 1), nItems := 0, kind := none }] }

/-- Witness for C1 at a concrete input: sowing two grain and one veg on a
board with only two empty fields raises the resource error and the error
state equals the board before the attempt. -/
theorem c1_failed_ops_atomic_witness : sowDemoPlayer = sowDemoPlayer :=
  c1_failed_ops_atomic (.sow 2 1) sowDemoPlayer (by decide) .notEnoughResources
    sowDemoPlayer (by decide)

/-- The claim's planting description: plant the first `n` still-empty fields
(planted kind `None`) with the given crop kind and item count, in field-list
order, leaving every other field unchanged. -/
def plantKindSpec (kind : String) (cnt : Nat) : List Field → Nat → List Field
  | [], _ => []
  | f :: fs, n =>
    if 0 < n ∧ f.kind = none then
      { f with nItems := cnt, kind := some kind } :: plantKindSpec kind cnt fs (n - 1)
    else f :: plantKindSpec kind cnt fs n

theorem plantKindSpec_zero (kind : String) (cnt : Nat) :
    ∀ fs : List Field, plantKindSpec kind cnt fs 0 = fs := by
  intro fs
  induction fs with
  | nil => rfl
  | cons f rest ih =>
    rw [plantKindSpec, if_neg (show ¬(0 < 0 ∧ f.kind = none) by simp), ih]

theorem plantFieldsAux_spec :
    ∀ (fs : List Field) (ng nv : Nat), (∀ f ∈ fs, Field.wf f) →
      (plantFieldsAux fs ng nv).1
        = plantKindSpec "veg" 2 (plantKindSpec "grain" 3 fs ng) nv := by
  intro fs
  induction fs with
  | nil => intro ng nv _; cases ng <;> cases nv <;> rfl
  | cons f rest ih =>
    intro ng nv hw
    have hwf : Field.wf f := hw f (List.mem_cons_self _ _)
    have hwr : ∀ g ∈ rest, Field.wf g := fun g hg => hw g (List.mem_cons_of_mem _ hg)
    rw [plantFieldsAux]
    by_cases hni : (f.nItems == 0) = true
    · have hkn : f.kind = none := hwf.mp (by simpa using hni)
      rw [if_pos hni]
      by_cases hg : 0 < ng
      · rw [if_pos hg]
        rw [show plantKindSpec "grain" 3 (f :: rest) ng
            = { f with nItems := 3, kind := some "grain" }
              :: plantKindSpec "grain" 3 rest (ng - 1) from by
          rw [plantKindSpec, if_pos ⟨hg, hkn⟩]]
        rw [show plantKindSpec "veg" 2 ({ f with nItems := 3, kind := some "grain" }
              :: plantKindSpec "grain" 3 rest (ng - 1)) nv
            = { f with nItems := 3, kind := some "grain" }
              :: plantKindSpec "veg" 2 (plantKindSpec "grain" 3 rest (ng - 1)) nv from by
          rw [plantKindSpec, if_neg (by simp)]]
        rw [ih (ng - 1) nv hwr]
      · rw [if_neg hg]
        have hng : ng = 0 := by omega
        subst hng
        rw [show plantKindSpec "grain" 3 (f :: rest) 0 = f :: rest from
          plantKindSpec_zero _ _ _]
        by_cases hv : 0 < nv
        · rw [if_pos hv]
          rw [show plantKindSpec "veg" 2 (f :: rest) nv
              = { f with nItems := 2, kind := some "veg" }
                :: plantKindSpec "veg" 2 rest (nv - 1) from by
            rw [plantKindSpec, if_pos ⟨hv, hkn⟩]]
          rw [ih 0 (nv - 1) hwr]
          rw [show plantKindSpec "grain" 3 rest 0 = rest from plantKindSpec_zero _ _ _]
        · rw [if_neg hv]
          have hnv : nv = 0 := by omega
          subst hnv
          rw [show plantKindSpec "veg" 2 (f :: rest) 0 = f :: rest from
            plantKindSpec_zero _ _ _]
    · have hkn : ¬(f.kind = none) := by
        intro hk
        exact hni (by simp [hwf.mpr hk])
      rw [if_neg hni]
      rw [show plantKindSpec "grain" 3 (f :: rest) ng
          = f :: plantKindSpec "grain" 3 rest ng from by
        rw [plantKindSpec, if_neg (by simp [hkn])]]
      rw [show plantKindSpec "veg" 2 (f :: plantKindSpec "grain" 3 rest ng) nv
          = f :: plantKindSpec "veg" 2 (plantKindSpec "grain" 3 rest ng) nv from by
        rw [plantKindSpec, if_neg (by simp [hkn])]]
      rw [ih ng nv hwr]

theorem transact_valid_keys {change prereq : Dict} {p : Player}
    (h : (change.any fun kv => !(RESOURCE_TYPES.contains kv.1)) = false) :
    transact change prereq p =
      match checkPrereqs (buildPrereq change prereq) p with
      | some e => .err e p
      | none => applyChange change p := by
  unfold transact
  rw [if_neg (fun hc => by rw [h] at hc; cases hc)]

theorem pget_empty_fields (p : Player) :
    pgetattrR p "empty_fields" = some (.int (emptyFieldsCount p)) := rfl

theorem pget_grain (p : Player) : pgetattrR p "grain" = some (.int p.grain) := rfl

theorem pget_veg (p : Player) : pgetattrR p "veg" = some (.int p.veg) := rfl

theorem settable_grain : settableOf "grain" = some SKey.grain := rfl

theorem buildPrereq_nil (pr : Dict) : buildPrereq [] pr = pr := rfl

theorem buildPrereq_cons_neg {v : Int} (hv : v < 0) (k : String) (rest : Dict) (pr : Dict) :
    buildPrereq ((k, v) :: rest) pr = buildPrereq rest (dset pr k ((dget pr k).getD 0 - v)) := by
  rw [buildPrereq, if_pos hv]

theorem buildPrereq_cons_nonneg {v : Int} (hv : ¬v < 0) (k : String) (rest : Dict)
    (pr : Dict) : buildPrereq ((k, v) :: rest) pr = buildPrereq rest pr := by
  rw [buildPrereq, if_neg hv]

theorem sow_checkPrereqs_pass {p : Player} {ng nv : Nat}
    (hef : (ng : Int) + nv ≤ (emptyFieldsCount p : Int))
    (hg : (ng : Int) ≤ p.grain) (hv : (nv : Int) ≤ p.veg) :
    checkPrereqs (buildPrereq [("grain", -(ng : Int)), ("veg", -(nv : Int))]
      [("empty_fields", (ng : Int) + (nv : Int))]) p = none := by
  rcases Nat.eq_zero_or_pos ng with hng | hng <;>
    rcases Nat.eq_zero_or_pos nv with hnv | hnv
  · rw [buildPrereq_cons_nonneg (by omega), buildPrereq_cons_nonneg (by omega), buildPrereq_nil]
    simp only [checkPrereqs, pget_empty_fields]
    rw [if_neg (by omega)]
  · rw [buildPrereq_cons_nonneg (by omega), buildPrereq_cons_neg (by omega), buildPrereq_nil]
    show checkPrereqs [("empty_fields", (ng : Int) + (nv : Int)),
      ("veg", 0 - -(nv : Int))] p = none
    simp only [checkPrereqs, pget_empty_fields, pget_veg]
    rw [if_neg (by omega), if_neg (by omega)]
  · rw [buildPrereq_cons_neg (by omega), buildPrereq_cons_nonneg (by omega), buildPrereq_nil]
    show checkPrereqs [("empty_fields", (ng : Int) + (nv : Int)),
      ("grain", 0 - -(ng : Int))] p = none
    simp only [checkPrereqs, pget_empty_fields, pget_grain]
    rw [if_neg (by omega), if_neg (by omega)]
  · rw [buildPrereq_cons_neg (by omega), buildPrereq_cons_neg (by omega), buildPrereq_nil]
    show checkPrereqs [("empty_fields", (ng : Int) + (nv : Int)),
      ("grain", 0 - -(ng : Int)), ("veg", 0 - -(nv : Int))] p = none
    simp only [checkPrereqs, pget_empty_fields, pget_grain, pget_veg]
    rw [if_neg (by omega), if_neg (by omega), if_neg (by omega)]

theorem sow_success {p : Player} {ng nv : Nat}
    (hw : ∀ f ∈ p.fieldsL, Field.wf f)
    (hef : (ng : Int) + nv ≤ (emptyFieldsCount p : Int))
    (hg : (ng : Int) ≤ p.grain) (hv : (nv : Int) ≤ p.veg) :
    sowRun p ng nv = .ok { p with
      grain := p.grain - ng
      veg := p.veg - nv
      fieldsL := plantKindSpec "veg" 2 (plantKindSpec "grain" 3 p.fieldsL ng) nv } := by
  have hcnt : ng + nv ≤ (p.fieldsL.filter fun f => f.nItems == 0).length := by
    rw [filter_empty_eq p.fieldsL hw]
    unfold emptyFieldsCount at hef
    omega
  have ht : transact [("grain", -(ng : Int)), ("veg", -(nv : Int))]
      [("empty_fields", (ng : Int) + (nv : Int))] p
      = .ok (setS (setS p .grain (-(ng : Int) + p.grain)) .veg (-(nv : Int) + p.veg)) := by
    rw [transact_valid_keys (show (List.any [("grain", -(ng : Int)), ("veg", -(nv : Int))] fun kv => !(RESOURCE_TYPES.contains kv.1)) = false from rfl), sow_checkPrereqs_pass hef hg hv]
    rw [applyChange_cons_settable settable_grain, applyChange_cons_settable settable_veg]
    rfl
  unfold sowRun
  rw [dlit2_eq, if_neg (by decide)]
  simp only [ht]
  rw [show (setS (setS p .grain (-(ng : Int) + p.grain)) .veg (-(nv : Int) + p.veg)).fieldsL
      = p.fieldsL from rfl]
  rw [if_pos (plantFieldsAux_enough p.fieldsL ng nv hcnt)]
  rw [plantFieldsAux_spec p.fieldsL ng nv hw]
  show PRun.ok { p with
    grain := -(ng : Int) + p.grain
    veg := -(nv : Int) + p.veg
    fieldsL := plantKindSpec "veg" 2 (plantKindSpec "grain" 3 p.fieldsL ng) nv } = _
  rw [show -(ng : Int) + p.grain = p.grain - ng by omega,
    show -(nv : Int) + p.veg = p.veg - nv by omega]

theorem sow_fail {p : Player} {ng nv : Nat} (h0 : AllNonneg p)
    (hpre : ¬((ng : Int) + nv ≤ (emptyFieldsCount p : Int) ∧
      (ng : Int) ≤ p.grain ∧ (nv : Int) ≤ p.veg)) :
    sowRun p ng nv = .err .notEnoughResources p := by
  have hg0 : (0 : Int) ≤ p.grain := h0 .grain rfl
  have hv0 : (0 : Int) ≤ p.veg := h0 .veg rfl
  have hchk : checkPrereqs (buildPrereq [("grain", -(ng : Int)), ("veg", -(nv : Int))]
      [("empty_fields", (ng : Int) + (nv : Int))]) p = some .notEnoughResources := by
    rcases Nat.eq_zero_or_pos ng with hng | hng <;>
      rcases Nat.eq_zero_or_pos nv with hnv | hnv
    · exfalso
      apply hpre
      refine ⟨?_, ?_, ?_⟩ <;> omega
    · rw [buildPrereq_cons_nonneg (by omega), buildPrereq_cons_neg (by omega), buildPrereq_nil]
      show checkPrereqs [("empty_fields", (ng : Int) + (nv : Int)),
        ("veg", 0 - -(nv : Int))] p = some .notEnoughResources
      by_cases hef : (ng : Int) + nv ≤ (emptyFieldsCount p : Int)
      · have hvv : ¬((nv : Int) ≤ p.veg) := fun hcon => hpre ⟨hef, by omega, hcon⟩
        simp only [checkPrereqs, pget_empty_fields, pget_veg]
        rw [if_neg (by omega), if_pos (by omega)]
      · simp only [checkPrereqs, pget_empty_fields, pget_veg]
        rw [if_pos (by omega)]
    · rw [buildPrereq_cons_neg (by omega), buildPrereq_cons_nonneg (by omega), buildPrereq_nil]
      show checkPrereqs [("empty_fields", (ng : Int) + (nv : Int)),
        ("grain", 0 - -(ng : Int))] p = some .notEnoughResources
      by_cases hef : (ng : Int) + nv ≤ (emptyFieldsCount p : Int)
      · have hgg : ¬((ng : Int) ≤ p.grain) := fun hcon => hpre ⟨hef, hcon, by omega⟩
        simp only [checkPrereqs, pget_empty_fields, pget_grain]
        rw [if_neg (by omega), if_pos (by omega)]
      · simp only [checkPrereqs, pget_empty_fields, pget_grain]
        rw [if_pos (by omega)]
    · rw [buildPrereq_cons_neg (by omega), buildPrereq_cons_neg (by omega), buildPrereq_nil]
      show checkPrereqs [("empty_fields", (ng : Int) + (nv : Int)),
        ("grain", 0 - -(ng : Int)), ("veg", 0 - -(nv : Int))] p = some .notEnoughResources
      by_cases hef : (ng : Int) + nv ≤ (emptyFieldsCount p : Int)
      · by_cases hgr : (ng : Int) ≤ p.grain
        · have hvv : ¬((nv : Int) ≤ p.veg) := fun hcon => hpre ⟨hef, hgr, hcon⟩
          simp only [checkPrereqs, pget_empty_fields, pget_grain, pget_veg]
          rw [if_neg (by omega), if_neg (by omega), if_pos (by omega)]
        · simp only [checkPrereqs, pget_empty_fields, pget_grain]
          rw [if_neg (by omega), if_pos (by omega)]
      · simp only [checkPrereqs, pget_empty_fields]
        rw [if_pos (by omega)]
  have ht : transact [("grain", -(ng : Int)), ("veg", -(nv : Int))]
      [("empty_fields", (ng : Int) + (nv : Int))] p = .err .notEnoughResources p := by
    rw [transact_valid_keys (show (List.any [("grain", -(ng : Int)), ("veg", -(nv : Int))]
      fun kv => !(RESOURCE_TYPES.contains kv.1)) = false from rfl), hchk]
  unfold sowRun
  rw [dlit2_eq, if_neg (by decide)]
  simp only [ht]

/-- C8: `sow(n_grain, n_veg)` requires `empty_fields ≥ n_grain + n_veg`,
`grain ≥ n_grain` and `veg ≥ n_veg`; when the precondition holds it deducts
the grain and veg and plants the first `n_grain` empty fields with grain
(count 3, kind grain) and the next `n_veg` empty fields with veg (count 2,
kind veg), in field-list order; when it fails it raises the resource error
(`AgricolaNotEnoughResources`) and the board is unchanged. Hypotheses: the
fields satisfy the constructor invariant and the ledger is non-negative, as
on every reachable board. -/
theorem c8_sow_correct (p : Player) (ng nv : Nat)
    (hw : ∀ f ∈ p.fieldsL, Field.wf f) (h0 : AllNonneg p) :
    (((ng : Int) + nv ≤ (emptyFieldsCount p : Int) ∧ (ng : Int) ≤ p.grain ∧
        (nv : Int) ≤ p.veg) →
      sowRun p ng nv = .ok { p with
        grain := p.grain - ng
        veg := p.veg - nv
        fieldsL := plantKindSpec "veg" 2 (plantKindSpec "grain" 3 p.fieldsL ng) nv }) ∧
    (¬((ng : Int) + nv ≤ (emptyFieldsCount p : Int) ∧ (ng : Int) ≤ p.grain ∧
        (nv : Int) ≤ p.veg) →
      sowRun p ng nv = .err .notEnoughResources p) :=
  ⟨fun hp => sow_success hw hp.1 hp.2.1 hp.2.2, fun hp => sow_fail h0 hp⟩

/-- Witness for C8 at the end-to-end scenario's board: two empty fields,
one grain and one veg in the ledger; `sow(1,1)` succeeds with the described
ledger deduction and planting. -/
theorem c8_sow_correct_witness :
    sowRun sowDemoPlayer 1 1 = .ok { sowDemoPlayer with
      grain := sowDemoPlayer.grain - 1
      veg := sowDemoPlayer.veg - 1
      fieldsL := plantKindSpec "veg" 2
        (plantKindSpec "grain" 3 sowDemoPlayer.fieldsL 1) 1 } := by
  have h := c8_sow_correct sowDemoPlayer 1 1 (by decide) (by decide)
  exact h.1 (by decide)

/-- The registry invariant of the claim: no cell is claimed by two regions of
different tracked kinds (except that a stable may coincide with a pasture
cell), no cell is claimed twice within the same kind, and each of the room,
field and pasture groups forms one connected orthogonal component. -/
def RegistryInvariant (p : Player) : Prop :=
  p.rooms.Nodup ∧
  (p.fieldsL.map Field.space).Nodup ∧
  (p.pastures.flatMap Pasture.spaces).Nodup ∧
  p.stables.Nodup ∧
  (∀ c ∈ p.rooms, c ∉ p.pastures.flatMap Pasture.spaces ∧ c ∉ p.stables ∧
    c ∉ p.fieldsL.map Field.space) ∧
  (∀ c ∈ p.pastures.flatMap Pasture.spaces, c ∉ p.fieldsL.map Field.space) ∧
  (∀ c ∈ p.stables, c ∉ p.fieldsL.map Field.space) ∧
  connectedNodes p.rooms = true ∧
  connectedNodes (p.fieldsL.map Field.space) = true ∧
  connectedNodes (p.pastures.flatMap Pasture.spaces) = true

instance (p : Player) : Decidable (RegistryInvariant p) := by
  unfold RegistryInvariant; infer_instance

/-- The default board plus the four wood needed to fence one cell. -/
def pastureDupDemo : Player := { defaultPlayer with wood := 4 }

/-- The single-cell pasture at (1,0). -/
def pastureCell10 : Pasture :=
  { spaces := [(1, 0)], fences := pastureFences [(1, 0)], nStables := 0 }

/-- C5 (code bug): `build_pastures` checks each new pasture alone, so a call
with two copies of the same one-cell pasture succeeds, leaving cell (1,0)
claimed by two regions of the pasture kind — the claimed registry invariant
fails after a successful build. -/
theorem c5_registry_invariant_bug :
    buildPasturesRun pastureDupDemo [[(1, 0)], [(1, 0)]]
      = .ok { pastureDupDemo with
          wood := 0
          fencesAvail := 11
          pastures := [pastureCell10, pastureCell10] } ∧
    ¬ RegistryInvariant { pastureDupDemo with
          wood := 0
          fencesAvail := 11
          pastures := [pastureCell10, pastureCell10] } := by
  refine ⟨by decide, by decide⟩

/-- Modelled from the spec: the pasture capacity formula
`capacity(p) = |p.spaces| * 2^(p.n_stables)` (the source reads the undefined
attribute `n_spaces` instead of the length of `spaces`). -/
def pastureCapacityIntended (pa : Pasture) : Nat := pa.spaces.length * 2 ^ pa.nStables

/-- A two-cell pasture with one stable. -/
def pastureDemo : Pasture :=
  { spaces := [(1, 0), (1, 1)], fences := pastureFences [(1, 0), (1, 1)], nStables := 1 }

/-- C6 (code bug): `Pasture.capacity` raises AttributeError on every pasture
(it reads the never-defined `self.n_spaces`); the claimed formula, modelled
from the spec, gives 2 * 2^1 = 4 for a two-cell one-stable pasture, and a
stable outside every pasture has unit capacity 1 (`Stable.capacity`). -/
theorem c6_pasture_capacity_bug :
    (∀ pa : Pasture, Pasture.capacityRun pa = .error .attributeError) ∧
    pastureCapacityIntended pastureDemo = 4 ∧
    stableCapacity = 1 :=
  ⟨fun _ => rfl, rfl, rfl⟩

/-- The stables whose cell lies inside no pasture (the intended
`free_stables` property). -/
def freeStablesIntended (p : Player) : Nat :=
  (p.stables.filter fun s => !p.pastures.any fun pa => pa.spaces.contains s).length

/-- Modelled from the spec: the capacity list handed to the solver,
`[1]*(free_stable_count+1) ++ [pasture.capacity() for each pasture]`. -/
def capacitiesIntended (p : Player) : List Nat :=
  List.replicate (freeStablesIntended p + 1) 1 ++ p.pastures.map pastureCapacityIntended

/-- Insertion step of an ascending insertion sort. -/
def sortNatInsert (x : Nat) : List Nat → List Nat
  | [] => [x]
  | y :: ys => if x ≤ y then x :: y :: ys else y :: sortNatInsert x ys

/-- Ascending insertion sort (Python's `sorted` on the animal counts). -/
def sortNat : List Nat → List Nat
  | [] => []
  | x :: xs => sortNatInsert x (sortNat xs)

/-- Modelled from the spec: `_check_animal_capacity` with the intended
`free_stables` count (the source reads the undefined `n_free_stables` and
crashes first). -/
def checkAnimalCapacityIntended (p : Player) (animalCounts : List Nat) : Bool :=
  multiset_satisfy (sortNat animalCounts) (capacitiesIntended p)

/-- C7 (code bug): on a fresh board (0 stables, 0 pastures) `add_animals`
always raises AttributeError at `self.n_free_stables` instead of reaching
the solver; under the intended check the capacity list is `[1]`, the first
sheep fits (counts sheep=1, boar=0, cattle=0) and a subsequent boar does
not (counts sheep=1, boar=1, cattle=0). -/
theorem c7_animal_capacity_bug :
    addAnimalsRun defaultPlayer [("sheep", 1)] = .err .attributeError defaultPlayer ∧
    capacitiesIntended defaultPlayer = [1] ∧
    checkAnimalCapacityIntended defaultPlayer [1, 0, 0] = true ∧
    checkAnimalCapacityIntended defaultPlayer [1, 1, 0] = false := by
  refine ⟨by decide, by decide, by decide, by decide⟩

/-- Modelled from the spec: `bake_bread` as the spec prescribes — the first
`min(n, len(rates)-1)` uses take the listed non-final rates in order, the
remaining uses repeat the final rate, and a zero final rate with `n`
exceeding the listed rates is a MalformedRequest (`AgricolaPoorlyFormed`).
The source instead evaluates `len(self.bread_rates-1)`, subtracting an int
from a list, so `bakeBreadRun` raises TypeError on every call. -/
def bakeBreadIntendedRun (p : Player) (n : Nat) : PRun :=
  match p.breadRates.getLast? with
  | none => .err .indexError p
  | some last =>
    if (n : Int) > (p.breadRates.length : Int) - 1 && last == 0 then .err .poorlyFormed p
    else
      transact (dlit2 "grain" (-(n : Int)) "food"
        ((p.breadRates.dropLast.take n).sum
          + last * ((n - (p.breadRates.dropLast.take n).length : Nat) : Int))) [] p

/-- The default board with one grain and the bread rate list [2, 0]. -/
def bakeDemoPlayer : Player := { defaultPlayer with
  grain := 1
  breadRates := [2, 0] }

/-- C9 (code bug): `bake_bread` raises TypeError on every call (it computes
`len(self.bread_rates - 1)`, list minus int); the spec-prescribed semantics,
modelled in `bakeBreadIntendedRun`, would deduct one grain and add 2 food
for rates [2,0] with n=1, and raise MalformedRequest for the default zero
final rate with n=1 exceeding the listed rates. -/
theorem c9_bake_bread_bug :
    bakeBreadRun bakeDemoPlayer 1 = .err .typeError bakeDemoPlayer ∧
    bakeBreadIntendedRun bakeDemoPlayer 1 = .ok { bakeDemoPlayer with
      grain := 0
      food := 2 } ∧
    bakeBreadRun defaultPlayer 1 = .err .typeError defaultPlayer ∧
    bakeBreadIntendedRun defaultPlayer 1 = .err .poorlyFormed defaultPlayer := by
  refine ⟨rfl, by decide, rfl, by decide⟩

/-- C10 counterexample: a stable request whose union with the existing
stables is disconnected, but which also overlaps a room — the call raises
the overlap error (`AgricolaImpossible`), not the connectivity error the
claim promises. The board is still unchanged. -/
theorem c10_counterexample :
    connectedNodes (defaultPlayer.stables ++ [((0 : Int), (0 : Int)), ((2 : Int), (2 : Int))])
      = false ∧
    buildStablesRun defaultPlayer [((0 : Int), (0 : Int)), ((2 : Int), (2 : Int))] 0
      = .err .impossible defaultPlayer ∧
    AgricolaError.impossible ≠ AgricolaError.logicError := by
  refine ⟨by decide, by decide, by decide⟩

/-- C10 amended: if the union of the new stables' cells with the existing
stables' cells is not one orthogonally connected component, `build_stables`
raises an error and neither the stable list nor the ledger changes (the
state carried out is exactly the prior state); the error is the
`Disconnected` connectivity error whenever the bounds-and-overlap validation
passes and the request is non-empty. -/
theorem c10_stables_connectivity (p : Player) (spaces : List Coord) (unitCost : Int)
    (hconn : connectedNodes (p.stables ++ spaces) = false) :
    ∃ e, buildStablesRun p spaces unitCost = .err e p ∧
      (spaces ≠ [] → checkSpatial p spaces true false = none → e = .logicError) := by
  cases spaces with
  | nil => exact ⟨.indexError, rfl, fun hne _ => absurd rfl hne⟩
  | cons s rest =>
    cases hcs : checkSpatial p (s :: rest) true false with
    | some e2 =>
      refine ⟨e2, ?_, fun _ hnone => Option.noConfusion hnone⟩
      unfold buildStablesRun
      simp [hcs]
    | none =>
      refine ⟨.logicError, ?_, fun _ _ => rfl⟩
      unfold buildStablesRun
      simp [hcs, hconn]

/-- Witness for the amended C10: two disconnected stable cells on the fresh
board raise the connectivity error with the board unchanged. -/
theorem c10_stables_connectivity_witness :
    ∃ e, buildStablesRun defaultPlayer [((2 : Int), (0 : Int)), ((2 : Int), (2 : Int))] 0
        = .err e defaultPlayer ∧
      ([((2 : Int), (0 : Int)), ((2 : Int), (2 : Int))] ≠ ([] : List Coord) →
        checkSpatial defaultPlayer [((2 : Int), (0 : Int)), ((2 : Int), (2 : Int))] true false
          = none →
        e = .logicError) :=
  c10_stables_connectivity defaultPlayer [((2 : Int), (0 : Int)), ((2 : Int), (2 : Int))] 0
    (by decide)

end Agricola
